import Mathlib

/-!
# Shallow embedding of `src/Reactor.js` (nuclear-js Reactor)

The Reactor is a message-driven state container: an insertion-ordered
immutable map `state` from core ids to sub-state values, a registry
`reactorCores` of cores, and a `cycle` loop that drains a batch of
messages, applying every registered core's `react` to its own sub-state
for each message, then publishing the finalized state once on the
output stream.

Only `src/Reactor.js` is in the sources.  Its collaborators
(`./utils`, `./immutable-helpers`, `./ReactorCore`, the `through`
streams and the `immutable` library) are modelled from the spec's
collaborator contracts (spec sections 3, 4.2, 4.3, 6); each such
definition carries a doc comment saying so.
-/

/-- A JS value as stored in the Reactor's state tree: the scalar and
mapping shapes the spec's data model uses (`absent` stands for JS
`undefined`/`null`).  Modelled from the spec: the persistent state
value is "an arbitrary nested mapping/sequence/scalar tree"; one
unified type serves both the plain and the persistent representation,
so the deep conversions are identities. -/
inductive Value where
  | absent : Value
  | bool (b : Bool) : Value
  | num (n : Int) : Value
  | str (s : String) : Value
  | map (entries : List (String × Value)) : Value

/-- JS truthiness of a `Value`: `undefined`/`null`, `false`, `0` and
`""` are falsy, everything else (objects included) is truthy.  Used to
embed the source's `core.initialize() || {}` and
`if (this.reactorCores[id])` tests faithfully. -/
def Value.truthy : Value → Bool
  | .absent => false
  | .bool b => b
  | .num n => n != 0
  | .str s => s != ""
  | .map _ => true

/-- The Reactor's state tree: an insertion-ordered mapping from core id
to sub-state, the embedding of `Immutable.Map`. -/
abbrev StateMap := List (String × Value)

/-- Lookup in an insertion-ordered map (`Immutable.Map.get`): `none`
embeds JS `undefined` for a missing key. -/
def mapGet (st : StateMap) (k : String) : Option Value :=
  match st with
  | [] => none
  | (k', v) :: rest => if k' = k then some v else mapGet rest k

/-- Update in an insertion-ordered map (`Immutable.Map.set`): replaces
the value in place when the key is present (keeping its position),
appends a new entry otherwise. -/
def mapSet (st : StateMap) (k : String) (v : Value) : StateMap :=
  match st with
  | [] => [(k, v)]
  | (k', v') :: rest => if k' = k then (k, v) :: rest else (k', v') :: mapSet rest k v

/-- Modelled from the spec: the deep immutable-to-plain conversion
`toJS` from `./immutable-helpers`.  Our unified `Value` type represents
both sides, so the conversion is the identity. -/
def toJS (v : Value) : Value := v

/-- Modelled from the spec: `Immutable.fromJS`, the coercion of a plain
value to the persistent representation.  Identity on the unified
`Value` type. -/
def fromJS (v : Value) : Value := v

/-- Modelled from the spec: `asImmutable`, the cheap "freeze"
guaranteeing a value handed to a core cannot be mutated through that
reference.  Values are already immutable in the embedding, so this is
the identity. -/
def asImmutable (v : Value) : Value := v

/-- A dispatched message: a `(type, payload)` pair. -/
structure Message where
  type : String
  payload : Value

/-- The errors the Reactor's methods can raise:
`registrationConflict` is the `throw new Error("Only one reactor can be
registered per id")` in `attachCore`; `referenceError` is the
`new Core()` on the non-instance path of `attachCore`, where no
variable `Core` is bound anywhere in the module (the import is
`ReactorCore`), so the line raises `ReferenceError`; `coreError`
carries a value thrown by a core's `react`. -/
inductive JsError where
  | registrationConflict : JsError
  | referenceError : JsError
  | coreError (v : Value) : JsError

/-- Modelled from the spec: a `ReactorCore` is polymorphic over
`initialize` (pure, no arguments, produces the initial sub-state;
a Lean keyword, so the field is named `initializeFn`) and `react`
(maps (current sub-state, message type, payload) to the new
sub-state).  `react` may throw, which the embedding represents with
`Except`. -/
structure ReactorCore where
  initializeFn : Value
  react : Value → String → Value → Except JsError Value

/-- The second argument of `attachCore`: either an actual
`ReactorCore` instance or some other value (the source tests this with
`core instanceof ReactorCore`). -/
inductive CoreInput where
  | inst (c : ReactorCore) : CoreInput
  | other (v : Value) : CoreInput

/-- The core registry: a JS object `id => core`, embedded as an
insertion-ordered association list (string keys of a JS object
enumerate in insertion order). -/
abbrev CoreRegistry := List (String × ReactorCore)

/-- Registry lookup (`this.reactorCores[id]`). -/
def coresGet (cores : CoreRegistry) (k : String) : Option ReactorCore :=
  match cores with
  | [] => none
  | (k', c) :: rest => if k' = k then some c else coresGet rest k

/-- Registry assignment (`this.reactorCores[id] = core`): replaces in
place when present, appends otherwise (JS object key order). -/
def coresSet (cores : CoreRegistry) (k : String) (c : ReactorCore) : CoreRegistry :=
  match cores with
  | [] => [(k, c)]
  | (k', c') :: rest => if k' = k then (k, c) :: rest else (k', c') :: coresSet rest k c

/-- Registry deletion (`delete this.reactorCores[id]`), preserving the
order of the remaining entries. -/
def coresDelete (cores : CoreRegistry) (k : String) : CoreRegistry :=
  match cores with
  | [] => []
  | (k', c') :: rest => if k' = k then coresDelete rest k else (k', c') :: coresDelete rest k

/-- The Reactor: the whole-cluster state tree and the core registry.
The two stream fields of the source carry no state that the claims
observe; the output stream's writes are returned by `cycle` instead. -/
structure Reactor where
  state : StateMap
  reactorCores : CoreRegistry

/-- The `Reactor` constructor: empty state (`Immutable.Map({})`) and
empty registry. -/
def mkReactor : Reactor :=
  { state := [], reactorCores := [] }

/-- A key path argument: either a single key or an ordered sequence of
keys. -/
inductive KeyPath where
  | single (k : String) : KeyPath
  | path (ks : List String) : KeyPath

/-- Modelled from the spec: `coerceKeyPath` from `./utils` — "path is a
single key or an ordered sequence of keys"; a lone key becomes a
one-element sequence. -/
def coerceKeyPath : KeyPath → List String
  | .single k => [k]
  | .path ks => ks

/-- Modelled from the spec: path-addressed get on the persistent value
(`get` from `./immutable-helpers`), "resolved by successive lookups;
absent intermediate keys yield an absent result rather than an
error". -/
def valueGetIn (v : Value) : List String → Value
  | [] => v
  | k :: rest =>
    match v with
    | .map entries => valueGetIn ((mapGet entries k).getD .absent) rest
    | _ => valueGetIn .absent rest

/-- `Reactor.getImmutable`: the persistent state at the key path. -/
def Reactor.getImmutable (r : Reactor) (keyPath : KeyPath) : Value :=
  valueGetIn (.map r.state) (coerceKeyPath keyPath)

/-- `Reactor.get`: the state at the key path, deep-converted to a plain
value. -/
def Reactor.get (r : Reactor) (keyPath : KeyPath) : Value :=
  toJS (r.getImmutable keyPath)

/-- The `each(cores, ...)` body of `cycle` for one message: iterate the
registry in insertion order; for each `(id, core)`, read the core's own
sub-state from the in-progress tree (frozen with `asImmutable`; a
missing entry reads as an absent value), call `core.react`, and write
the returned value back at `id` (`state.set(id, newState)`).  A throw
from `react` aborts the iteration and propagates. -/
def eachCoreReact (m : Message) (st : StateMap) : CoreRegistry → Except JsError StateMap
  | [] => .ok st
  | (id, core) :: rest =>
    let reactorState := asImmutable ((mapGet st id).getD .absent)
    match core.react reactorState m.type m.payload with
    | .error e => .error e
    | .ok newState => eachCoreReact m (mapSet st id newState) rest

/-- The `while (messages.length > 0)` loop of `cycle`: shift the first
message off the (caller's) array and run every core on it.  Returns the
loop's outcome together with what is left in the caller's array: on a
throw the messages shifted so far — the throwing one included — are
gone from it. -/
def whileMessages (cores : CoreRegistry) :
    List Message → StateMap → Except JsError StateMap × List Message
  | [], st => (.ok st, [])
  | m :: ms, st =>
    match eachCoreReact m st cores with
    | .error e => (.error e, ms)
    | .ok st' => whileMessages cores ms st'

/-- What one `cycle` call leaves behind: the error it threw (if any),
the reactor afterwards, the snapshots written to the output stream
during the call, and the contents of the caller's message array. -/
structure CycleOutcome where
  thrown : Option JsError
  reactor : Reactor
  published : List StateMap
  remaining : List Message

/-- `Reactor.cycle(messages)`: run the message loop inside one `mutate`
scope over the current tree.  On success the finalized tree is
assigned to `this.state` and written once to the output stream; on a
throw the `mutate` scope is aborted, the assignment and the write never
happen, and the error propagates (the `thrown` field).  The argument is
the already-coerced message batch (`coerceArray` wraps a lone message
into a one-element array; an array is passed through as-is and is
consumed destructively by `shift`). -/
def Reactor.cycle (r : Reactor) (messages : List Message) : CycleOutcome :=
  match whileMessages r.reactorCores messages r.state with
  | (.error e, rem) => { thrown := some e, reactor := r, published := [], remaining := rem }
  | (.ok st, rem) =>
    { thrown := none
      reactor := { r with state := st }
      published := [st]
      remaining := rem }

/-- `Reactor.attachCore(id, core)`.  In source order: if
`this.reactorCores[id]` is truthy, throw (a stored core object is
always truthy, so this is a presence test); if the argument is not a
`ReactorCore` instance, execute `core = new Core()` — but `Core` is not
bound anywhere in the module, so this raises a `ReferenceError`; then
`initialize` is called once and its result, when falsy, is replaced by
`{}` (`core.initialize() || {}`), coerced with `Immutable.fromJS` and
stored at `state[id]`; finally the registry gains the core. -/
def Reactor.attachCore (r : Reactor) (id : String) (input : CoreInput) :
    Except JsError Reactor :=
  if (coresGet r.reactorCores id).isSome then
    .error .registrationConflict
  else
    match input with
    | .other _ => .error .referenceError
    | .inst core =>
      let initialState := if (core.initializeFn).truthy then core.initializeFn else .map []
      .ok { state := mapSet r.state id (fromJS initialState)
            reactorCores := coresSet r.reactorCores id core }

/-- The observable run of `attachCore` as a method call: on a throw the
method exits before any assignment to `this.state` or
`this.reactorCores`, so the reactor is returned unchanged alongside the
error. -/
def Reactor.attachRun (r : Reactor) (id : String) (input : CoreInput) :
    Option JsError × Reactor :=
  match r.attachCore id input with
  | .error e => (some e, r)
  | .ok r' => (none, r')

/-- `Reactor.unattachCore(id)`: deletes the registry entry only; the
state tree is untouched.  No error when `id` is absent. -/
def Reactor.unattachCore (r : Reactor) (id : String) : Reactor :=
  { r with reactorCores := coresDelete r.reactorCores id }

/-- One operation of the Reactor's public mutation API. -/
inductive Op where
  | attach (id : String) (input : CoreInput) : Op
  | unattach (id : String) : Op
  | cycleOp (msgs : List Message) : Op

/-- Apply one operation to a reactor as a caller would: a throwing
`attachCore` or `cycle` leaves the reactor as it was. -/
def applyOp (r : Reactor) : Op → Reactor
  | .attach id input => (r.attachRun id input).2
  | .unattach id => r.unattachCore id
  | .cycleOp msgs => (r.cycle msgs).reactor

/-- The reactor reached from a fresh one by a sequence of operations. -/
def runOps (ops : List Op) : Reactor :=
  ops.foldl applyOp mkReactor

/-- The fold described by the spec's words (the refinement target for
the cycle claim): for each message in FIFO submission order, apply
every registered core's `react` in registry insertion order to that
core's own sub-state and write the returned value back as the entire
new sub-state at the core's id; a throw propagates. -/
def specCycleFold (cores : CoreRegistry) (msgs : List Message) (st : StateMap) :
    Except JsError StateMap :=
  msgs.foldlM
    (fun acc m =>
      cores.foldlM
        (fun acc2 p =>
          Except.map (fun v => mapSet acc2 p.1 v)
            (p.2.react ((mapGet acc2 p.1).getD .absent) m.type m.payload))
        acc)
    st

theorem eachCoreReact_eq_foldlM (m : Message) (cores : CoreRegistry) (st : StateMap) :
    eachCoreReact m st cores =
      cores.foldlM
        (fun acc2 p =>
          Except.map (fun v => mapSet acc2 p.1 v)
            (p.2.react ((mapGet acc2 p.1).getD .absent) m.type m.payload))
        st := by
  induction cores generalizing st with
  | nil => rfl
  | cons p rest ih =>
    obtain ⟨id, core⟩ := p
    simp only [eachCoreReact, List.foldlM_cons, asImmutable]
    cases hr : core.react ((mapGet st id).getD .absent) m.type m.payload with
    | error e => simp [hr, Except.map, Except.bind, Bind.bind]
    | ok v => simp [hr, Except.map, Except.bind, Bind.bind, ih]

theorem whileMessages_fst_eq (cores : CoreRegistry) (msgs : List Message) (st : StateMap) :
    (whileMessages cores msgs st).1 = specCycleFold cores msgs st := by
  induction msgs generalizing st with
  | nil => rfl
  | cons m ms ih =>
    simp only [whileMessages]
    cases hr : eachCoreReact m st cores with
    | error e =>
      simp only [specCycleFold, List.foldlM_cons]
      rw [← eachCoreReact_eq_foldlM, hr]
      simp [Except.bind, Bind.bind]
    | ok st' =>
      simp only [specCycleFold, List.foldlM_cons]
      rw [← eachCoreReact_eq_foldlM, hr]
      simp only [Except.bind, Bind.bind]
      exact ih st'

/-- Auxiliary: with an empty registry the message loop consumes every
message, changes nothing and never throws. -/
theorem whileMessages_nil_cores (msgs : List Message) (st : StateMap) :
    whileMessages [] msgs st = (.ok st, []) := by
  induction msgs with
  | nil => rfl
  | cons m ms ih => simpa [whileMessages, eachCoreReact] using ih

/-- The spec's example core `counter`: `initialize() -> 0` and
`react(state, 'INCREMENT', n) -> state + n`, embedded as integer
addition on numeric sub-states; on a non-numeric sub-state (which the
intended semantics never produces, but the buggy attach does — see the
counter-example theorem) the embedding returns the sub-state unchanged,
which in particular is never a number. -/
def counterCore : ReactorCore :=
  { initializeFn := .num 0
    react := fun s t p =>
      if t = "INCREMENT" then
        match s, p with
        | .num a, .num b => .ok (.num (a + b))
        | _, _ => .ok s
      else .ok s }

/-- A core whose `react` always throws. -/
def boomCore : ReactorCore :=
  { initializeFn := .map []
    react := fun _ _ _ => .error (.coreError (.str "boom")) }

/-- A core with initial state `0` and the identity transition. -/
def zeroCore : ReactorCore :=
  { initializeFn := .num 0
    react := fun s _ _ => .ok s }

/-- The message `{type: 'INCREMENT', payload: 1}`. -/
def msgInc1 : Message := { type := "INCREMENT", payload := .num 1 }

/-- The message `{type: 'INCREMENT', payload: 2}`. -/
def msgInc2 : Message := { type := "INCREMENT", payload := .num 2 }

/-- A reactor holding the counter core with its intended initial
sub-state `0` already seeded. -/
def counterReactor : Reactor :=
  { state := [("counter", .num 0)], reactorCores := [("counter", counterCore)] }

/-- A reactor holding a single always-throwing core. -/
def boomReactor : Reactor :=
  { state := [("b", .map [])], reactorCores := [("b", boomCore)] }

/-- C1: for every reactor (hence for every one reached by any sequence
of attachCore/unattachCore/cycle operations) and every message batch, a
cycle that completes without a throw leaves as the state tree exactly
the fold that applies, for each message in FIFO order, every registered
core's `react` in registry insertion order to that core's own
sub-state, writing each returned value back as the entire new sub-state
at the core's id (`specCycleFold`). -/
theorem cycle_is_spec_fold (r : Reactor) (msgs : List Message)
    (h : (r.cycle msgs).thrown = none) :
    Except.ok (r.cycle msgs).reactor.state = specCycleFold r.reactorCores msgs r.state := by
  have hw := whileMessages_fst_eq r.reactorCores msgs r.state
  cases hq : whileMessages r.reactorCores msgs r.state with
  | mk fst rem =>
    rw [hq] at hw
    cases fst with
    | error e =>
      exfalso
      simp [Reactor.cycle, hq] at h
    | ok st' =>
      simp only [Reactor.cycle, hq]
      exact hw

/-- Witness for C1 at the spec's counter example (with the intended
seed): the hypothesis (no throw) holds and the fold is evaluated. -/
theorem cycle_is_spec_fold_witness :
    (counterReactor.cycle [msgInc1, msgInc2]).thrown = none
    ∧ Except.ok (counterReactor.cycle [msgInc1, msgInc2]).reactor.state
        = specCycleFold counterReactor.reactorCores [msgInc1, msgInc2] counterReactor.state :=
  ⟨rfl, cycle_is_spec_fold counterReactor [msgInc1, msgInc2] rfl⟩

/-- C2: a throw from a core's `react` during `cycle` propagates to the
caller (the `thrown` field), the mutation scope is aborted, and the
reactor — its externally visible state tree included — is exactly what
it was before the call; nothing is published. -/
theorem cycle_throw_is_abort (r : Reactor) (msgs : List Message) (e : JsError)
    (h : (r.cycle msgs).thrown = some e) :
    (r.cycle msgs).reactor = r ∧ (r.cycle msgs).published = [] := by
  cases hq : whileMessages r.reactorCores msgs r.state with
  | mk fst rem =>
    cases fst with
    | error e' => constructor <;> simp [Reactor.cycle, hq]
    | ok st' =>
      exfalso
      simp [Reactor.cycle, hq] at h

/-- Witness for C2: a concrete always-throwing core; the hypothesis
(the cycle threw) is discharged by evaluation. -/
theorem cycle_throw_is_abort_witness :
    (boomReactor.cycle [msgInc1]).reactor = boomReactor
    ∧ (boomReactor.cycle [msgInc1]).published = [] :=
  cycle_throw_is_abort boomReactor [msgInc1] (.coreError (.str "boom")) rfl

/-- C4: a cycle that completes without a throw publishes the finalized
state tree on the output stream exactly once; in particular an empty
batch, and a cycle under an empty registry (which can never throw),
publish exactly once.  (When a core throws, C2 applies: the cycle
aborts and publishes nothing.) -/
theorem cycle_publishes_once (r : Reactor) (msgs : List Message) :
    ((r.cycle msgs).thrown = none →
        (r.cycle msgs).published = [(r.cycle msgs).reactor.state])
    ∧ (msgs = [] → (r.cycle msgs).published.length = 1)
    ∧ (r.reactorCores = [] → (r.cycle msgs).published.length = 1) := by
  refine ⟨?_, ?_, ?_⟩
  · intro h
    cases hq : whileMessages r.reactorCores msgs r.state with
    | mk fst rem =>
      cases fst with
      | error e =>
        exfalso
        simp [Reactor.cycle, hq] at h
      | ok st' => simp [Reactor.cycle, hq]
  · rintro rfl
    rfl
  · intro hc
    simp [Reactor.cycle, hc, whileMessages_nil_cores]

/-- Witness for C4 at the empty reactor and empty batch, where all
three hypotheses hold. -/
theorem cycle_publishes_once_witness :
    (mkReactor.cycle []).published = [(mkReactor.cycle []).reactor.state]
    ∧ (mkReactor.cycle []).published.length = 1
    ∧ (mkReactor.cycle []).published.length = 1 :=
  ⟨(cycle_publishes_once mkReactor []).1 rfl,
   (cycle_publishes_once mkReactor []).2.1 rfl,
   (cycle_publishes_once mkReactor []).2.2 rfl⟩

/-- C5: dispatching an empty message batch leaves the reactor — its
state tree in particular — equal to what it was before the call, throws
nothing, and still publishes the (unchanged) state exactly once. -/
theorem cycle_empty_batch (r : Reactor) :
    (r.cycle []).reactor = r
    ∧ (r.cycle []).thrown = none
    ∧ (r.cycle []).published = [r.state] :=
  ⟨rfl, rfl, rfl⟩

/-- C3: attaching under an id that is already registered throws the
registration-conflict error before any assignment, so the registry
entry and the state-tree entry for that id (indeed the whole reactor)
are left exactly as they were. -/
theorem attachCore_conflict (r : Reactor) (id : String) (input : CoreInput)
    (h : (coresGet r.reactorCores id).isSome = true) :
    (r.attachRun id input).1 = some .registrationConflict
    ∧ (r.attachRun id input).2 = r
    ∧ coresGet ((r.attachRun id input).2).reactorCores id = coresGet r.reactorCores id
    ∧ mapGet ((r.attachRun id input).2).state id = mapGet r.state id := by
  have he : r.attachCore id input = .error .registrationConflict := by
    simp [Reactor.attachCore, h]
  simp [Reactor.attachRun, he]

/-- The reactor obtained by attaching `zeroCore` under `"x"` to a fresh
reactor. -/
def zeroAttached : Reactor := (mkReactor.attachRun "x" (.inst zeroCore)).2

/-- Witness for C3: a concrete double attach; the hypothesis (the id is
already registered) is discharged by evaluation. -/
theorem attachCore_conflict_witness :
    (zeroAttached.attachRun "x" (.inst boomCore)).1 = some .registrationConflict
    ∧ (zeroAttached.attachRun "x" (.inst boomCore)).2 = zeroAttached
    ∧ coresGet ((zeroAttached.attachRun "x" (.inst boomCore)).2).reactorCores "x"
        = coresGet zeroAttached.reactorCores "x"
    ∧ mapGet ((zeroAttached.attachRun "x" (.inst boomCore)).2).state "x"
        = mapGet zeroAttached.state "x" :=
  attachCore_conflict zeroAttached "x" (.inst boomCore) rfl

/-- Auxiliary: how `mapSet` changes `mapGet`. -/
theorem mapGet_mapSet (st : StateMap) (k k' : String) (v : Value) :
    mapGet (mapSet st k v) k' = if k = k' then some v else mapGet st k' := by
  induction st with
  | nil => simp [mapSet, mapGet]
  | cons p rest ih =>
    obtain ⟨k1, v1⟩ := p
    by_cases h1 : k1 = k
    · subst h1
      by_cases h2 : k1 = k'
      · subst h2
        simp [mapSet, mapGet]
      · simp [mapSet, mapGet, h2]
    · by_cases h2 : k1 = k'
      · subst h2
        simp [mapSet, mapGet, h1, Ne.symm h1, ih]
      · simp [mapSet, mapGet, h1, h2, ih]

/-- Auxiliary: how `coresSet` changes `coresGet`. -/
theorem coresGet_coresSet (cores : CoreRegistry) (k k' : String) (c : ReactorCore) :
    coresGet (coresSet cores k c) k' = if k = k' then some c else coresGet cores k' := by
  induction cores with
  | nil => simp [coresSet, coresGet]
  | cons p rest ih =>
    obtain ⟨k1, c1⟩ := p
    by_cases h1 : k1 = k
    · subst h1
      by_cases h2 : k1 = k'
      · subst h2
        simp [coresSet, coresGet]
      · simp [coresSet, coresGet, h2]
    · by_cases h2 : k1 = k'
      · subst h2
        simp [coresSet, coresGet, h1, Ne.symm h1, ih]
      · simp [coresSet, coresGet, h1, h2, ih]

/-- Auxiliary: how `coresDelete` changes `coresGet`. -/
theorem coresGet_coresDelete (cores : CoreRegistry) (k k' : String) :
    coresGet (coresDelete cores k) k' = if k = k' then none else coresGet cores k' := by
  induction cores with
  | nil => simp [coresDelete, coresGet]
  | cons p rest ih =>
    obtain ⟨k1, c1⟩ := p
    by_cases h1 : k1 = k
    · subst h1
      by_cases h2 : k1 = k'
      · subst h2
        simp [coresDelete, ih]
      · simp [coresDelete, coresGet, h2, ih]
    · by_cases h2 : k1 = k'
      · subst h2
        simp [coresDelete, coresGet, h1, Ne.symm h1, ih]
      · simp [coresDelete, coresGet, h1, h2, ih]

/-- Every registered id has an entry in the state tree: the invariant
behind claim C6. -/
def RegistryStateInv (r : Reactor) : Prop :=
  ∀ id : String, (coresGet r.reactorCores id).isSome = true →
    (mapGet r.state id).isSome = true

/-- Auxiliary: a successful core pass only writes, so it keeps every
present state key present. -/
theorem eachCoreReact_ok_isSome (m : Message) (cores : CoreRegistry) (st st' : StateMap)
    (h : eachCoreReact m st cores = .ok st') (k : String)
    (hk : (mapGet st k).isSome = true) : (mapGet st' k).isSome = true := by
  induction cores generalizing st with
  | nil =>
    simp only [eachCoreReact] at h
    cases h
    exact hk
  | cons p rest ih =>
    obtain ⟨id, core⟩ := p
    simp only [eachCoreReact] at h
    cases hr : core.react (asImmutable ((mapGet st id).getD .absent)) m.type m.payload with
    | error e =>
      rw [hr] at h
      cases h
    | ok v =>
      rw [hr] at h
      refine ih (mapSet st id v) h ?_
      rw [mapGet_mapSet]
      by_cases hid : id = k
      · simp [hid]
      · simpa [hid] using hk

/-- Auxiliary: a successful message loop keeps every present state key
present. -/
theorem whileMessages_ok_isSome (cores : CoreRegistry) (msgs : List Message)
    (st st' : StateMap) (rem : List Message)
    (h : whileMessages cores msgs st = (.ok st', rem)) (k : String)
    (hk : (mapGet st k).isSome = true) : (mapGet st' k).isSome = true := by
  induction msgs generalizing st with
  | nil =>
    simp only [whileMessages] at h
    cases h
    exact hk
  | cons m ms ih =>
    simp only [whileMessages] at h
    cases hr : eachCoreReact m st cores with
    | error e =>
      rw [hr] at h
      cases h
    | ok st1 =>
      rw [hr] at h
      exact ih st1 h (eachCoreReact_ok_isSome m cores st st1 hr k hk)

/-- Auxiliary: `applyOp` preserves the registry/state invariant. -/
theorem applyOp_inv (r : Reactor) (op : Op) (hr : RegistryStateInv r) :
    RegistryStateInv (applyOp r op) := by
  cases op with
  | attach id input =>
    simp only [applyOp, Reactor.attachRun]
    cases hq : r.attachCore id input with
    | error e => exact hr
    | ok r' =>
      simp only
      unfold Reactor.attachCore at hq
      by_cases hc : (coresGet r.reactorCores id).isSome = true
      · rw [if_pos hc] at hq
        cases hq
      · rw [if_neg hc] at hq
        cases input with
        | other v => cases hq
        | inst core =>
          simp only at hq
          cases hq
          intro id' h'
          rw [coresGet_coresSet] at h'
          rw [mapGet_mapSet]
          by_cases hid : id = id'
          · simp [hid]
          · simp only [if_neg hid] at h' ⊢
            exact hr id' h'
  | unattach id =>
    intro id' h'
    simp only [applyOp, Reactor.unattachCore] at h' ⊢
    rw [coresGet_coresDelete] at h'
    by_cases hid : id = id'
    · simp [hid] at h'
    · simp only [if_neg hid] at h'
      exact hr id' h'
  | cycleOp msgs =>
    simp only [applyOp, Reactor.cycle]
    cases hq : whileMessages r.reactorCores msgs r.state with
    | mk fst rem =>
      cases fst with
      | error e => exact hr
      | ok st' =>
        intro id' h'
        simp only at h' ⊢
        exact whileMessages_ok_isSome r.reactorCores msgs r.state st' rem hq id' (hr id' h')

/-- Auxiliary: the invariant holds along every operation sequence. -/
theorem foldl_applyOp_inv (ops : List Op) (r : Reactor) (hr : RegistryStateInv r) :
    RegistryStateInv (ops.foldl applyOp r) := by
  induction ops generalizing r with
  | nil => exact hr
  | cons op rest ih => exact ih (applyOp r op) (applyOp_inv r op hr)

/-- C6: in every reactor reachable from a fresh one by any sequence of
attachCore/unattachCore/cycle operations, every id present in the core
registry has an entry in the state tree (attach seeds it, a successful
cycle writes a value back at every registered id, a failed call leaves
the reactor untouched, and unattach never removes the state entry). -/
theorem registered_id_has_state (ops : List Op) (id : String)
    (h : (coresGet (runOps ops).reactorCores id).isSome = true) :
    (mapGet (runOps ops).state id).isSome = true := by
  refine foldl_applyOp_inv ops mkReactor ?_ id h
  intro id' h'
  simp [mkReactor, coresGet] at h'

/-- Witness for C6: after one concrete attach, the registered id is
present in the registry (the hypothesis, discharged by evaluation) and
resolves in the state tree. -/
theorem registered_id_has_state_witness :
    (mapGet (runOps [.attach "x" (.inst zeroCore)]).state "x").isSome = true :=
  registered_id_has_state [.attach "x" (.inst zeroCore)] "x" rfl

/-- C7 (counter-evidence): `attachCore` stores the initializer's result
only after `core.initialize() || \x7b\x7d`, which replaces every falsy
result — not only an absent one — by an empty mapping.  For the core
whose initializer returns `0` (present, not absent), the attach
succeeds but the state tree gets `\x7b\x7d` instead of the coerced
result `0`. -/
theorem attach_falsy_initial_state_bug :
    (mkReactor.attachRun "x" (.inst zeroCore)).1 = none
    ∧ mapGet ((mkReactor.attachRun "x" (.inst zeroCore)).2).state "x" = some (.map [])
    ∧ fromJS zeroCore.initializeFn = .num 0
    ∧ Value.map [] ≠ Value.num 0 :=
  ⟨rfl, rfl, rfl, fun h => Value.noConfusion h⟩

/-- C8 (counter-evidence): on the non-instance path `attachCore`
executes `core = new Core()`, but `Core` is bound nowhere in the module
(the class in scope is `ReactorCore`), so the call raises a
`ReferenceError` and nothing is registered — the attach does not
complete with a default instance. -/
theorem attach_non_core_reference_error_bug :
    mkReactor.attachRun "y" (.other (.num 5)) = (some .referenceError, mkReactor) :=
  rfl

/-- The reactor obtained by actually attaching the spec's counter core
to a fresh reactor through `attachCore`. -/
def counterAttached : Reactor := (mkReactor.attachRun "counter" (.inst counterCore)).2

/-- C9 (counter-evidence): attaching the counter core stores `\x7b\x7d`
instead of `0` (the `|| \x7b\x7d` falsy coercion), so after the
two-increment batch `get('counter')` is not `3`; had the intended
initial sub-state `0` been stored, the very same cycle would return
`3`, and exactly one snapshot is published either way. -/
theorem counter_example_bug :
    counterAttached.getImmutable (.single "counter") = .map []
    ∧ (counterAttached.cycle [msgInc1, msgInc2]).reactor.get (.single "counter") = .map []
    ∧ (counterReactor.cycle [msgInc1, msgInc2]).reactor.get (.single "counter") = .num 3
    ∧ (counterAttached.cycle [msgInc1, msgInc2]).published.length = 1
    ∧ Value.map [] ≠ Value.num 3 :=
  ⟨rfl, rfl, rfl, rfl, fun h => Value.noConfusion h⟩

/-- Auxiliary: the message loop leaves exactly a suffix of the batch in
the caller's array — the first `k` messages were shifted off one at a
time; on normal completion all of them were, and on a throw at least
the throwing one was. -/
theorem whileMessages_remaining_spec (cores : CoreRegistry) (msgs : List Message)
    (st : StateMap) :
    ∃ k, k ≤ msgs.length
      ∧ (whileMessages cores msgs st).2 = msgs.drop k
      ∧ (∀ st', (whileMessages cores msgs st).1 = .ok st' → k = msgs.length)
      ∧ (∀ e, (whileMessages cores msgs st).1 = .error e → 1 ≤ k) := by
  induction msgs generalizing st with
  | nil =>
    refine ⟨0, Nat.le_refl 0, rfl, fun st' _ => rfl, fun e h => ?_⟩
    simp [whileMessages] at h
  | cons m ms ih =>
    cases hr : eachCoreReact m st cores with
    | error e =>
      refine ⟨1, ?_, ?_, ?_, ?_⟩
      · simp
      · simp [whileMessages, hr]
      · intro st' h
        simp [whileMessages, hr] at h
      · intro e' _
        exact Nat.le_refl 1
    | ok st1 =>
      obtain ⟨k, hk, hrem, hok, herr⟩ := ih st1
      refine ⟨k + 1, ?_, ?_, ?_, ?_⟩
      · simpa using Nat.succ_le_succ hk
      · simp [whileMessages, hr, hrem]
      · intro st' h
        simp only [whileMessages, hr] at h
        simp [hok st' h]
      · intro e _
        exact Nat.succ_le_succ (Nat.zero_le k)

/-- C10: `cycle` consumes the caller's array destructively from the
front: what is left afterwards is the suffix `msgs.drop k` for some
`k`; a cycle that completes normally leaves the array empty, and a
cycle aborted by a core throw removed at least the messages processed
up to and including the throwing one (`1 ≤ k`). -/
theorem cycle_consumes_messages (r : Reactor) (msgs : List Message) :
    ∃ k, k ≤ msgs.length
      ∧ (r.cycle msgs).remaining = msgs.drop k
      ∧ ((r.cycle msgs).thrown = none → (r.cycle msgs).remaining = [])
      ∧ (∀ e, (r.cycle msgs).thrown = some e → 1 ≤ k) := by
  obtain ⟨k, hk, hrem, hok, herr⟩ := whileMessages_remaining_spec r.reactorCores msgs r.state
  cases hq : whileMessages r.reactorCores msgs r.state with
  | mk fst rem =>
    rw [hq] at hrem hok herr
    simp only at hrem hok herr
    cases fst with
    | error e =>
      refine ⟨k, hk, ?_, ?_, ?_⟩
      · simpa [Reactor.cycle, hq] using hrem
      · intro h
        exfalso
        simp [Reactor.cycle, hq] at h
      · intro e' _
        exact herr e rfl
    | ok st' =>
      refine ⟨k, hk, ?_, ?_, ?_⟩
      · simpa [Reactor.cycle, hq] using hrem
      · intro _
        have hkl := hok st' rfl
        simp [Reactor.cycle, hq, hrem, hkl]
      · intro e h
        exfalso
        simp [Reactor.cycle, hq] at h

/-- Witness for C10: at a concrete reactor and two-message batch the
no-throw hypothesis is discharged by evaluation and the caller's array
ends up empty. -/
theorem cycle_consumes_messages_witness :
    (counterReactor.cycle [msgInc1, msgInc2]).remaining = [] := by
  obtain ⟨k, hk, hrem, hok, herr⟩ := cycle_consumes_messages counterReactor [msgInc1, msgInc2]
  exact hok rfl
